import Mathlib

/-
Verification of the model-normalization, UV-repair, bounds, framing,
hover and camera-snap logic of the webgpu-babylon-demo repository.
Numeric values are modelled over the rationals; where JavaScript
non-finite values (Infinity, NaN) are observable, an explicit extended
number type JsNum is used instead.
-/
namespace WebGpuDemo

/-- Vector of three rational coordinates, modelling a Babylon Vector3
with finite components. -/
structure Vec3 where
  x : ℚ
  y : ℚ
  z : ℚ
deriving DecidableEq, Repr

/-- Axis-aligned bounding box with finite components. -/
structure Box where
  min : Vec3
  max : Vec3
deriving DecidableEq, Repr

/-- Size vector of a box, componentwise max minus min. -/
def boxSize (b : Box) : Vec3 :=
  ⟨b.max.x - b.min.x, b.max.y - b.min.y, b.max.z - b.min.z⟩

/-- Largest component of a vector, as Math.max of the three components. -/
def max3 (v : Vec3) : ℚ :=
  max (max v.x v.y) v.z

/-- Largest dimension of a box. -/
def maxDim (b : Box) : ℚ :=
  max3 (boxSize b)

/-- Center of a box: min.add(max).scale(0.5) in the source. -/
def boxCenter (b : Box) : Vec3 :=
  ⟨(b.min.x + b.max.x) / 2, (b.min.y + b.max.y) / 2, (b.min.z + b.max.z) / 2⟩

/-- JavaScript expression a || d over finite numbers: the left operand
unless it is zero (falsy), else the default. -/
def jsOr (a d : ℚ) : ℚ :=
  if a = 0 then d else a

/-- Minimum X over a vertex list, modelling the loop that starts from
Infinity and folds Math.min; seeded from the first vertex, and zero on
the empty list where the source loop leaves Infinity unused. -/
def minXs : List Vec3 → ℚ
  | [] => 0
  | p :: t => (t.map Vec3.x).foldl min p.x

/-- Maximum X over a vertex list, same convention as minXs. -/
def maxXs : List Vec3 → ℚ
  | [] => 0
  | p :: t => (t.map Vec3.x).foldl max p.x

/-- Minimum Z over a vertex list, same convention as minXs. -/
def minZs : List Vec3 → ℚ
  | [] => 0
  | p :: t => (t.map Vec3.z).foldl min p.z

/-- Maximum Z over a vertex list, same convention as minXs. -/
def maxZs : List Vec3 → ℚ
  | [] => 0
  | p :: t => (t.map Vec3.z).foldl max p.z

/-- Divisor for the u coordinate: maxX - minX || 1 in the source. -/
def rangeX (ps : List Vec3) : ℚ :=
  jsOr (maxXs ps - minXs ps) 1

/-- Divisor for the v coordinate: maxZ - minZ || 1 in the source. -/
def rangeZ (ps : List Vec3) : ℚ :=
  jsOr (maxZs ps - minZs ps) 1

/-- Synthesized u for one vertex: (x - minX) / rangeX. -/
def uOf (ps : List Vec3) (p : Vec3) : ℚ :=
  (p.x - minXs ps) / rangeX ps

/-- Synthesized v for one vertex: (z - minZ) / rangeZ. -/
def vOf (ps : List Vec3) (p : Vec3) : ℚ :=
  (p.z - minZs ps) / rangeZ ps

/-- The flat interleaved UV buffer the repair loop writes: for each
vertex two entries, u then v. -/
def synthUVs (ps : List Vec3) : List ℚ :=
  ps.flatMap (fun p => [uOf ps p, vOf ps p])

/-- A UV component is invalid when below -1 or above 10 (the isFinite
part of the source test cannot fail over the rationals). -/
def uvInvalid (v : ℚ) : Bool :=
  decide (v < -1 ∨ v > 10)

/-- Mesh vertex data visible to the repair pass: the optional position
buffer, the primary UV channel, and the fallback channels UV2..UV6 in
priority order. -/
structure MeshData where
  positions : Option (List Vec3)
  uv : Option (List ℚ)
  uvAlts : List (List ℚ)
deriving DecidableEq, Repr

/-- Fallback adoption: when the primary channel is absent, copy the
first nonempty alternative channel into the primary slot. -/
def adoptFallback (m : MeshData) : MeshData :=
  match m.uv with
  | some _ => m
  | none =>
    match m.uvAlts.find? (fun alt => decide (0 < alt.length)) with
    | some alt => { m with uv := some alt }
    | none => m

/-- Whether the repair must run: UVs absent, or some component invalid. -/
def needsFix (uv : Option (List ℚ)) : Bool :=
  match uv with
  | none => true
  | some us => us.any uvInvalid

/-- The per-mesh UV repair pass of loadModels: skip meshes without
positions, adopt a fallback channel, then overwrite the primary channel
with planar-projected coordinates when the current set is invalid. -/
def repairUVs (m : MeshData) : MeshData :=
  match m.positions with
  | none => m
  | some ps =>
    let m1 := adoptFallback m
    if needsFix m1.uv then { m1 with uv := some (synthUVs ps) } else m1

/-- Divisor for u as the spec sentence words it: max(maxX - minX, 1).
This definition follows the wording of the specification and is
compared against the source-derived rangeX. -/
def rangeXSpec (ps : List Vec3) : ℚ :=
  max (maxXs ps - minXs ps) 1

/-- Divisor for v as the spec sentence words it: max(maxZ - minZ, 1). -/
def rangeZSpec (ps : List Vec3) : ℚ :=
  max (maxZs ps - minZs ps) 1

/-- UV buffer the spec wording would produce, for comparison with the
source-derived synthUVs. -/
def synthUVsSpec (ps : List Vec3) : List ℚ :=
  ps.flatMap (fun p =>
    [(p.x - minXs ps) / rangeXSpec ps, (p.z - minZs ps) / rangeZSpec ps])

/-- Uniform scale factor of the normalizer: targetSize / maxDim, in the
finite regime where maxDim is nonzero. -/
def normScale (fit : ℚ) (b : Box) : ℚ :=
  fit / maxDim b

/-- Offset node translation: (-center.x, -min.y, -center.z). -/
def offsetOf (b : Box) : Vec3 :=
  ⟨-(boxCenter b).x, -(b.min.y), -(boxCenter b).z⟩

/-- Composite anchor, scale, offset transform applied to a local point:
anchor position plus scale times (offset plus point). The SceneManager
variant folds the pre-scaled offset into the group position and yields
the same map. -/
def chainApply (a : Vec3) (s : ℚ) (off : Vec3) (p : Vec3) : Vec3 :=
  ⟨a.x + s * (off.x + p.x), a.y + s * (off.y + p.y), a.z + s * (off.z + p.z)⟩

/-- Image of a bounding box under the transform chain, valid as a
bounding box when the scale is nonnegative. -/
def worldBox (a : Vec3) (s : ℚ) (off : Vec3) (b : Box) : Box :=
  ⟨chainApply a s off b.min, chainApply a s off b.max⟩

/-- Membership of a point in a box, componentwise. -/
def inBox (b : Box) (p : Vec3) : Prop :=
  b.min.x ≤ p.x ∧ p.x ≤ b.max.x ∧
  b.min.y ≤ p.y ∧ p.y ≤ b.max.y ∧
  b.min.z ≤ p.z ∧ p.z ≤ b.max.z

/-- JavaScript number with the observable non-finite values. -/
inductive JsNum where
  | fin (q : ℚ)
  | posInf
  | negInf
  | nan
deriving DecidableEq, Repr

/-- Finiteness of a JavaScript number, the isFinite predicate. -/
def JsNum.isFinite : JsNum → Bool
  | JsNum.fin _ => true
  | _ => false

/-- JavaScript division of finite numbers: ordinary division when the
divisor is nonzero, otherwise a signed infinity or NaN. -/
def jsDiv (a b : ℚ) : JsNum :=
  if b = 0 then
    if 0 < a then JsNum.posInf else if a < 0 then JsNum.negInf else JsNum.nan
  else JsNum.fin (a / b)

/-- Model descriptor, from the ModelConfig type of models.config.ts. -/
structure MConfig where
  name : String
  file : String
  position : Option Vec3
  rotation : Option Vec3
  fitSize : Option ℚ
  pickable : Option Bool
deriving DecidableEq, Repr

/-- Anchor position: cfg.position ?? [0, 0, 0]. -/
def anchorPosOf (cfg : MConfig) : Vec3 :=
  cfg.position.getD ⟨0, 0, 0⟩

/-- Target footprint: cfg.fitSize ?? 30. -/
def fitSizeOf (cfg : MConfig) : ℚ :=
  cfg.fitSize.getD 30

/-- Name to anchor-position registry; a fresh entry is prepended and
lookup returns the most recent one, modelling assignment to a
JavaScript record keyed by name. -/
abbrev Registry := List (String × Vec3)

/-- Lookup of the anchor registered under a name. -/
def regFind (r : Registry) (n : String) : Option Vec3 :=
  (r.find? (fun e => decide (e.fst = n))).map Prod.snd

/-- Outcome of the per-model normalization step of CanvasHost
loadModels: the scale written to the scaler node and the registry
after the unconditional anchors[cfg.name] assignment. -/
structure NormResult where
  registry : Registry
  scale : JsNum
deriving DecidableEq, Repr

/-- Per-model step of CanvasHost loadModels, lines 520-540: compute
scale = fitSize / maxDim with no degeneracy check, create the anchor
and register it under the descriptor name with no duplicate check. -/
def canvasNormalize (r : Registry) (cfg : MConfig) (b : Box) : NormResult :=
  { registry := (cfg.name, anchorPosOf cfg) :: r,
    scale := jsDiv (fitSizeOf cfg) (maxDim b) }

/-- Registry after the CanvasHost loader processed a list of models,
each with its computed raw bounds. -/
def canvasLoadAll (items : List (MConfig × Box)) (r : Registry) : Registry :=
  items.foldl (fun acc it => (canvasNormalize acc it.fst it.snd).registry) r

/-- Per-model step of SceneManager.loadModels: a name already present
is skipped before loading; otherwise the model is registered when its
bounds are available, and skipped when they are not. -/
def smLoadStep (r : Registry) (cfg : MConfig) (bounds : Option Box) : Registry :=
  if (regFind r cfg.name).isSome then r
  else
    match bounds with
    | none => r
    | some _ => (cfg.name, anchorPosOf cfg) :: r

/-- Registry after the SceneManager loader processed a list of models. -/
def smLoadAll (items : List (MConfig × Option Box)) (r : Registry) : Registry :=
  items.foldl (fun acc it => smLoadStep acc it.fst it.snd) r

/-- Shared duplicate descriptor name used by the C5 theorems. -/
def dupName : String := "building"

/-- Shared asset file name used by the C5 and C6 theorems. -/
def dupFile : String := "wells_fargo.glb"

/-- First descriptor of the duplicate pair. -/
def dupCfg1 : MConfig :=
  { name := dupName, file := dupFile, position := some ⟨-30, 0, 0⟩,
    rotation := none, fitSize := some 40, pickable := some true }

/-- Second descriptor of the duplicate pair, same name, other anchor. -/
def dupCfg2 : MConfig :=
  { name := dupName, file := dupFile, position := some ⟨30, 2/5, 0⟩,
    rotation := none, fitSize := some 60, pickable := some true }

/-- Unit raw bounds used by the registration counterexamples. -/
def unitBox : Box := ⟨⟨0, 0, 0⟩, ⟨1, 1, 1⟩⟩

/-- Point bounds of a zero-extent mesh. -/
def pointBox : Box := ⟨⟨5, 5, 5⟩, ⟨5, 5, 5⟩⟩

/-- Camera pose: orbit target point and radius. -/
structure CamState where
  target : Vec3
  radius : ℚ
deriving DecidableEq, Repr

/-- Componentwise union of two boxes. -/
def boxUnion (b1 b2 : Box) : Box :=
  ⟨⟨min b1.min.x b2.min.x, min b1.min.y b2.min.y, min b1.min.z b2.min.z⟩,
   ⟨max b1.max.x b2.max.x, max b1.max.y b2.max.y, max b1.max.z b2.max.z⟩⟩

/-- Containment order on boxes: the first box lies inside the second. -/
def boxLe (inner outer : Box) : Prop :=
  outer.min.x ≤ inner.min.x ∧ outer.min.y ≤ inner.min.y ∧
  outer.min.z ≤ inner.min.z ∧ inner.max.x ≤ outer.max.x ∧
  inner.max.y ≤ outer.max.y ∧ inner.max.z ≤ outer.max.z

/-- One accumulation step of frameAll: merge the next anchor bounds
into the running union, treating absent bounds as no contribution; the
source seeds the fold with infinities so the first real box becomes the
accumulator. -/
def unionStep (acc : Option Box) (ob : Option Box) : Option Box :=
  match acc, ob with
  | none, ob2 => ob2
  | some b, none => some b
  | some b, some b2 => some (boxUnion b b2)

/-- Accumulated union over the per-anchor world bounds, with the
hasModels flag encoded as the accumulator being present. -/
def unionAcc (bs : List (Option Box)) : Option Box :=
  bs.foldl unionStep none

/-- SceneManager.frameAll: frame the union box of all anchors, or fall
back to target (0, 10, 0) and radius 150 when no anchor contributed. -/
def frameAll (bs : List (Option Box)) (cam : CamState) : CamState :=
  match unionAcc bs with
  | none => { target := ⟨0, 10, 0⟩, radius := 150 }
  | some b =>
    { target := boxCenter b, radius := max (max3 (boxSize b) * (3/2)) 100 }

/-- End-of-load framing of the CanvasHost loader: average the anchor
X and Z positions into a target at height 20 when any anchor exists,
and in every case set radius 150. -/
def canvasFrame (anchorPositions : List Vec3) (cam : CamState) : CamState :=
  if anchorPositions.length = 0 then { cam with radius := 150 }
  else
    { target := ⟨(anchorPositions.map Vec3.x).sum / anchorPositions.length, 20,
                 (anchorPositions.map Vec3.z).sum / anchorPositions.length⟩,
      radius := 150 }

/-- Math.min over JavaScript numbers: NaN absorbs, negative infinity
dominates, positive infinity is neutral. -/
def jsMin : JsNum → JsNum → JsNum
  | JsNum.nan, _ => JsNum.nan
  | _, JsNum.nan => JsNum.nan
  | JsNum.negInf, _ => JsNum.negInf
  | _, JsNum.negInf => JsNum.negInf
  | JsNum.posInf, b => b
  | a, JsNum.posInf => a
  | JsNum.fin a, JsNum.fin b => JsNum.fin (min a b)

/-- Math.max over JavaScript numbers: NaN absorbs, positive infinity
dominates, negative infinity is neutral. -/
def jsMax : JsNum → JsNum → JsNum
  | JsNum.nan, _ => JsNum.nan
  | _, JsNum.nan => JsNum.nan
  | JsNum.posInf, _ => JsNum.posInf
  | _, JsNum.posInf => JsNum.posInf
  | JsNum.negInf, b => b
  | a, JsNum.negInf => a
  | JsNum.fin a, JsNum.fin b => JsNum.fin (max a b)

/-- Vector of three JavaScript numbers. -/
structure JsVec3 where
  x : JsNum
  y : JsNum
  z : JsNum
deriving DecidableEq, Repr

/-- Bounding box over JavaScript numbers, as held by a mesh. -/
structure JsBox where
  min : JsVec3
  max : JsVec3
deriving DecidableEq, Repr

/-- Componentwise Vector3.Minimize. -/
def jvMin (a b : JsVec3) : JsVec3 :=
  ⟨jsMin a.x b.x, jsMin a.y b.y, jsMin a.z b.z⟩

/-- Componentwise Vector3.Maximize. -/
def jvMax (a b : JsVec3) : JsVec3 :=
  ⟨jsMax a.x b.x, jsMax a.y b.y, jsMax a.z b.z⟩

/-- Accumulated minimum corner over the mesh boxes, seeded with the
positive-infinity vector as in the source. -/
def accMin (ms : List JsBox) : JsVec3 :=
  ms.foldl (fun acc m => jvMin acc m.min)
    ⟨JsNum.posInf, JsNum.posInf, JsNum.posInf⟩

/-- Accumulated maximum corner over the mesh boxes, seeded with the
negative-infinity vector as in the source. -/
def accMax (ms : List JsBox) : JsVec3 :=
  ms.foldl (fun acc m => jvMax acc m.max)
    ⟨JsNum.negInf, JsNum.negInf, JsNum.negInf⟩

/-- The bounds computation shared by sceneControls computeWorldBounds
and the SceneManager local and world variants: null for an empty mesh
set, then the accumulated corners, rejected only when the X component
of either corner is non-finite. -/
def computeWorldBounds (ms : List JsBox) : Option JsBox :=
  if ms.length = 0 then none
  else if (accMin ms).x.isFinite && (accMax ms).x.isFinite then
    some ⟨accMin ms, accMax ms⟩
  else none

/-- State of the hover controller: the lastHoveredMesh reference and
the set of meshes currently carrying the highlight marker (the outline
flag in this build, and equivalently the highlight-layer membership in
the other branch). Meshes are identified by a natural number. -/
structure HoverState where
  last : Option ℕ
  marked : Finset ℕ
deriving DecidableEq

/-- A pointer event together with the value the isInteracting flag has
when the handler runs; any interleaving of flag changes is covered by
the flag being free per event. -/
inductive PEvent where
  | over (m : ℕ) (interacting : Bool)
  | out (m : ℕ) (interacting : Bool)
deriving DecidableEq, Repr

/-- The registered PointerOver and PointerOut handlers: while
interacting, both do nothing; over ignores a repeated mesh, otherwise
clears the marker of the previous mesh before marking the new one;
out drops the reference when the leaving mesh is the current one and
removes the leaving mesh marker. -/
def hoverStep (s : HoverState) : PEvent → HoverState
  | PEvent.over m i =>
    if i then s
    else if s.last = some m then s
    else
      { last := some m,
        marked := insert m (match s.last with
          | some prev => s.marked.erase prev
          | none => s.marked) }
  | PEvent.out m i =>
    if i then s
    else
      { last := if s.last = some m then none else s.last,
        marked := s.marked.erase m }

/-- State after a sequence of pointer events from the initial state
with no hovered mesh and no markers. -/
def hoverRun (evs : List PEvent) : HoverState :=
  evs.foldl hoverStep ⟨none, ∅⟩

/-- Invariant carried through the event loop: every marked mesh is the
one referenced by lastHoveredMesh. -/
def HoverInv (s : HoverState) : Prop :=
  ∀ x ∈ s.marked, s.last = some x

/-- The applySnap observer: nothing for a non-positive snap distance;
otherwise snap the target X and Z to the nearest multiple of the snap
distance with Math.round, keep Y, and reset the target only when a
coordinate actually changed (the unchanged case writes back the same
target). Mathlib round is floor of x plus one half, which agrees with
Math.round on the rationals. -/
def applySnap (snap : ℚ) (cam : CamState) : CamState :=
  if snap ≤ 0 then cam
  else
    let sx : ℚ := ((round (cam.target.x / snap) : ℤ) : ℚ) * snap
    let sz : ℚ := ((round (cam.target.z / snap) : ℤ) : ℚ) * snap
    if sx ≠ cam.target.x ∨ sz ≠ cam.target.z then
      { cam with target := ⟨sx, cam.target.y, sz⟩ }
    else cam

/- Fold lemmas for the min/max accumulation. -/
theorem foldlMin_le_init (l : List ℚ) (a : ℚ) : l.foldl min a ≤ a := by
  induction l generalizing a with
  | nil => simp
  | cons b t ih => exact le_trans (ih (min a b)) (min_le_left a b)

theorem foldlMin_le_mem (l : List ℚ) (a b : ℚ) (hb : b ∈ l) :
    l.foldl min a ≤ b := by
  induction l generalizing a with
  | nil => cases hb
  | cons c t ih =>
    rcases List.mem_cons.mp hb with h | h
    · subst h
      exact le_trans (foldlMin_le_init t (min a b)) (min_le_right a b)
    · exact ih (min a c) h

theorem init_le_foldlMax (l : List ℚ) (a : ℚ) : a ≤ l.foldl max a := by
  induction l generalizing a with
  | nil => simp
  | cons b t ih => exact le_trans (le_max_left a b) (ih (max a b))

theorem mem_le_foldlMax (l : List ℚ) (a b : ℚ) (hb : b ∈ l) :
    b ≤ l.foldl max a := by
  induction l generalizing a with
  | nil => cases hb
  | cons c t ih =>
    rcases List.mem_cons.mp hb with h | h
    · subst h
      exact le_trans (le_max_right a b) (init_le_foldlMax t (max a b))
    · exact ih (max a c) h

theorem minXs_le (ps : List Vec3) (p : Vec3) (hp : p ∈ ps) :
    minXs ps ≤ p.x := by
  cases ps with
  | nil => cases hp
  | cons q t =>
    rcases List.mem_cons.mp hp with h | h
    · subst h; exact foldlMin_le_init _ _
    · exact foldlMin_le_mem _ _ _ (List.mem_map_of_mem Vec3.x h)

theorem le_maxXs (ps : List Vec3) (p : Vec3) (hp : p ∈ ps) :
    p.x ≤ maxXs ps := by
  cases ps with
  | nil => cases hp
  | cons q t =>
    rcases List.mem_cons.mp hp with h | h
    · subst h; exact init_le_foldlMax _ _
    · exact mem_le_foldlMax _ _ _ (List.mem_map_of_mem Vec3.x h)

theorem minZs_le (ps : List Vec3) (p : Vec3) (hp : p ∈ ps) :
    minZs ps ≤ p.z := by
  cases ps with
  | nil => cases hp
  | cons q t =>
    rcases List.mem_cons.mp hp with h | h
    · subst h; exact foldlMin_le_init _ _
    · exact foldlMin_le_mem _ _ _ (List.mem_map_of_mem Vec3.z h)

theorem le_maxZs (ps : List Vec3) (p : Vec3) (hp : p ∈ ps) :
    p.z ≤ maxZs ps := by
  cases ps with
  | nil => cases hp
  | cons q t =>
    rcases List.mem_cons.mp hp with h | h
    · subst h; exact init_le_foldlMax _ _
    · exact mem_le_foldlMax _ _ _ (List.mem_map_of_mem Vec3.z h)

/-- The synthesized u of any vertex lies in the unit interval. -/
theorem uOf_mem_unit (ps : List Vec3) (p : Vec3) (hp : p ∈ ps) :
    0 ≤ uOf ps p ∧ uOf ps p ≤ 1 := by
  have hmin := minXs_le ps p hp
  have hmax := le_maxXs ps p hp
  unfold uOf rangeX jsOr
  by_cases h0 : maxXs ps - minXs ps = 0
  · have hx : p.x = minXs ps := le_antisymm (by linarith) hmin
    simp [h0, hx]
  · have hpos : 0 < maxXs ps - minXs ps := by
      have : 0 ≤ maxXs ps - minXs ps := by linarith
      exact lt_of_le_of_ne this (Ne.symm h0)
    rw [if_neg h0]
    constructor
    · exact div_nonneg (by linarith) (le_of_lt hpos)
    · rw [div_le_one hpos]; linarith

/-- The synthesized v of any vertex lies in the unit interval. -/
theorem vOf_mem_unit (ps : List Vec3) (p : Vec3) (hp : p ∈ ps) :
    0 ≤ vOf ps p ∧ vOf ps p ≤ 1 := by
  have hmin := minZs_le ps p hp
  have hmax := le_maxZs ps p hp
  unfold vOf rangeZ jsOr
  by_cases h0 : maxZs ps - minZs ps = 0
  · have hz : p.z = minZs ps := le_antisymm (by linarith) hmin
    simp [h0, hz]
  · have hpos : 0 < maxZs ps - minZs ps := by
      have : 0 ≤ maxZs ps - minZs ps := by linarith
      exact lt_of_le_of_ne this (Ne.symm h0)
    rw [if_neg h0]
    constructor
    · exact div_nonneg (by linarith) (le_of_lt hpos)
    · rw [div_le_one hpos]; linarith

/-- Every entry of the synthesized buffer lies in the unit interval. -/
theorem synthUVs_mem_unit (ps : List Vec3) (w : ℚ) (hw : w ∈ synthUVs ps) :
    0 ≤ w ∧ w ≤ 1 := by
  unfold synthUVs at hw
  rcases List.mem_flatMap.mp hw with ⟨p, hp, hwp⟩
  rcases List.mem_cons.mp hwp with h | h
  · subst h; exact uOf_mem_unit ps p hp
  · rcases List.mem_cons.mp h with h2 | h2
    · subst h2; exact vOf_mem_unit ps p hp
    · cases h2

/-- No entry of the synthesized buffer is invalid. -/
theorem synthUVs_valid (ps : List Vec3) (w : ℚ) (hw : w ∈ synthUVs ps) :
    uvInvalid w = false := by
  rcases synthUVs_mem_unit ps w hw with ⟨h0, h1⟩
  unfold uvInvalid
  simp only [decide_eq_false_iff_not]
  push_neg
  constructor <;> linarith

theorem adoptFallback_positions (m : MeshData) :
    (adoptFallback m).positions = m.positions := by
  unfold adoptFallback
  cases m.uv with
  | some _ => rfl
  | none =>
    cases m.uvAlts.find? (fun alt => decide (0 < alt.length)) with
    | some alt => rfl
    | none => rfl

theorem adoptFallback_of_uv_some (m : MeshData) (us : List ℚ)
    (h : m.uv = some us) : adoptFallback m = m := by
  unfold adoptFallback
  rw [h]

theorem synthUVs_any_invalid (ps : List Vec3) :
    (synthUVs ps).any uvInvalid = false := by
  rw [List.any_eq_false]
  intro w hw
  simp [synthUVs_valid ps w hw]

theorem repairUVs_none (m : MeshData) (hp : m.positions = none) :
    repairUVs m = m := by
  unfold repairUVs
  rw [hp]

theorem repairUVs_some (m : MeshData) (ps : List Vec3)
    (hp : m.positions = some ps) :
    repairUVs m =
      if needsFix (adoptFallback m).uv
      then { adoptFallback m with uv := some (synthUVs ps) }
      else adoptFallback m := by
  unfold repairUVs
  rw [hp]

/-- C4: the UV repair pass is idempotent: a second application sees a
valid primary channel and changes nothing, so the mesh record after two
applications equals the record after one. -/
theorem c4_repairUVs_idempotent (m : MeshData) :
    repairUVs (repairUVs m) = repairUVs m := by
  cases hp : m.positions with
  | none =>
    have h1 : repairUVs m = m := repairUVs_none m hp
    rw [h1]
    exact h1
  | some ps =>
    have h1 := repairUVs_some m ps hp
    by_cases hf : needsFix (adoptFallback m).uv = true
    · have hr : repairUVs m = { adoptFallback m with uv := some (synthUVs ps) } := by
        rw [h1, if_pos hf]
      have hpos2 : (repairUVs m).positions = some ps := by
        rw [hr]
        show (adoptFallback m).positions = some ps
        rw [adoptFallback_positions, hp]
      have huv2 : (repairUVs m).uv = some (synthUVs ps) := by
        rw [hr]
      have hadopt : adoptFallback (repairUVs m) = repairUVs m :=
        adoptFallback_of_uv_some _ _ huv2
      have hnofix : needsFix (repairUVs m).uv = false := by
        rw [huv2]
        unfold needsFix
        exact synthUVs_any_invalid ps
      rw [repairUVs_some (repairUVs m) ps hpos2, hadopt, hnofix]
      simp
    · have hfb : needsFix (adoptFallback m).uv = false :=
        Bool.eq_false_iff.mpr hf
      have hr : repairUVs m = adoptFallback m := by
        rw [h1, if_neg hf]
      have hpos2 : (repairUVs m).positions = some ps := by
        rw [hr, adoptFallback_positions, hp]
      have hadopt : adoptFallback (repairUVs m) = repairUVs m := by
        cases hu : (adoptFallback m).uv with
        | none =>
          exfalso
          rw [hu] at hfb
          simp [needsFix] at hfb
        | some us =>
          apply adoptFallback_of_uv_some _ us
          rw [hr, hu]
      have hnofix : needsFix (repairUVs m).uv = false := by
        rw [hr]
        exact hfb
      rw [repairUVs_some (repairUVs m) ps hpos2, hadopt, hnofix]
      simp

/-- C2 counterexample: for two vertices with X extent one half, the
source divides by the extent one half (the JavaScript or-expression
keeps any nonzero value), not by 1 as the claim states, and the two
buffers differ. -/
theorem c2_counterexample :
    rangeX [(⟨0, 0, 0⟩ : Vec3), ⟨1/2, 0, 0⟩] = 1/2 ∧
    rangeXSpec [(⟨0, 0, 0⟩ : Vec3), ⟨1/2, 0, 0⟩] = 1 ∧
    synthUVs [(⟨0, 0, 0⟩ : Vec3), ⟨1/2, 0, 0⟩] ≠
      synthUVsSpec [(⟨0, 0, 0⟩ : Vec3), ⟨1/2, 0, 0⟩] := by
  refine ⟨?_, ?_, ?_⟩
  · show jsOr _ _ = _
    norm_num [maxXs, minXs, jsOr]
  · norm_num [rangeXSpec, maxXs, minXs]
  · intro h
    have h2 : synthUVs [(⟨0, 0, 0⟩ : Vec3), ⟨1/2, 0, 0⟩] = [0, 0, 1, 0] := by
      norm_num [synthUVs, uOf, vOf, rangeX, rangeZ, maxXs, minXs, maxZs, minZs, jsOr,
        List.flatMap]
    have h3 : synthUVsSpec [(⟨0, 0, 0⟩ : Vec3), ⟨1/2, 0, 0⟩] = [0, 0, 1/2, 0] := by
      norm_num [synthUVsSpec, rangeXSpec, rangeZSpec, maxXs, minXs, maxZs, minZs,
        List.flatMap]
    rw [h2, h3] at h
    norm_num at h

theorem flatMapPair_getElem (f g : Vec3 → ℚ) (l : List Vec3) (i : ℕ)
    (h : i < l.length) :
    (l.flatMap fun p => [f p, g p])[2 * i]? = some (f (l.get ⟨i, h⟩)) ∧
    (l.flatMap fun p => [f p, g p])[2 * i + 1]? = some (g (l.get ⟨i, h⟩)) := by
  induction l generalizing i with
  | nil => simp at h
  | cons p t ih =>
    cases i with
    | zero => simp
    | succ j =>
      have hj : j < t.length := Nat.lt_of_succ_lt_succ (by simpa using h)
      have e1 : 2 * (j + 1) = (2 * j + 1) + 1 := by ring
      have e2 : 2 * (j + 1) + 1 = ((2 * j + 1) + 1) + 1 := by ring
      have hflat : ((p :: t).flatMap fun p => [f p, g p]) =
          f p :: g p :: (t.flatMap fun p => [f p, g p]) := by
        simp
      rcases ih j hj with ⟨ih1, ih2⟩
      constructor
      · rw [hflat, e1]
        simpa using ih1
      · rw [hflat, e2]
        simpa using ih2

/-- C2 amended: the repair emits u = (x - minX) / rangeX and
v = (z - minZ) / rangeZ per vertex (u at buffer slot 2i, v at 2i+1),
where the range of an axis is its extent whenever the extent is
nonzero, even when smaller than 1, and is 1 only for a zero extent. -/
theorem c2_uv_emission (ps : List Vec3) (i : ℕ) (h : i < ps.length) :
    (synthUVs ps)[2 * i]? =
      some (((ps.get ⟨i, h⟩).x - minXs ps) / rangeX ps) ∧
    (synthUVs ps)[2 * i + 1]? =
      some (((ps.get ⟨i, h⟩).z - minZs ps) / rangeZ ps) ∧
    (maxXs ps - minXs ps ≠ 0 → rangeX ps = maxXs ps - minXs ps) ∧
    (maxXs ps - minXs ps = 0 → rangeX ps = 1) ∧
    (maxZs ps - minZs ps ≠ 0 → rangeZ ps = maxZs ps - minZs ps) ∧
    (maxZs ps - minZs ps = 0 → rangeZ ps = 1) := by
  rcases flatMapPair_getElem (uOf ps) (vOf ps) ps i h with ⟨h1, h2⟩
  refine ⟨h1, h2, ?_, ?_, ?_, ?_⟩
  · intro hne
    unfold rangeX jsOr
    rw [if_neg hne]
  · intro he
    unfold rangeX jsOr
    rw [if_pos he]
  · intro hne
    unfold rangeZ jsOr
    rw [if_neg hne]
  · intro he
    unfold rangeZ jsOr
    rw [if_pos he]

/-- C2 witness: the amended emission theorem applied to a concrete two
vertex buffer with X extent one half. -/
theorem c2_uv_emission_witness :
    (synthUVs [(⟨0, 0, 0⟩ : Vec3), ⟨1/2, 0, 0⟩])[2 * 1]? =
      some ((((⟨1/2, 0, 0⟩ : Vec3)).x -
        minXs [(⟨0, 0, 0⟩ : Vec3), ⟨1/2, 0, 0⟩]) /
        rangeX [(⟨0, 0, 0⟩ : Vec3), ⟨1/2, 0, 0⟩]) := by
  have h : (1 : ℕ) < ([(⟨0, 0, 0⟩ : Vec3), ⟨1/2, 0, 0⟩] : List Vec3).length := by
    norm_num
  exact (c2_uv_emission [(⟨0, 0, 0⟩ : Vec3), ⟨1/2, 0, 0⟩] 1 h).1

/-- C3 counterexample: when every vertex shares the same X (zero
extent), the vertex at the maximum X receives u = 0, not 1. -/
theorem c3_counterexample :
    (⟨2, 0, 0⟩ : Vec3) ∈ ([⟨2, 0, 0⟩, ⟨2, 0, 5⟩] : List Vec3) ∧
    (⟨2, 0, 0⟩ : Vec3).x = maxXs [⟨2, 0, 0⟩, ⟨2, 0, 5⟩] ∧
    uOf [⟨2, 0, 0⟩, ⟨2, 0, 5⟩] ⟨2, 0, 0⟩ ≠ 1 ∧
    synthUVs [⟨2, 0, 0⟩, ⟨2, 0, 5⟩] = [0, 0, 0, 1] := by
  refine ⟨by simp, ?_, ?_, ?_⟩
  · norm_num [maxXs]
  · norm_num [uOf, rangeX, maxXs, minXs, jsOr]
  · norm_num [synthUVs, uOf, vOf, rangeX, rangeZ, maxXs, minXs, maxZs, minZs, jsOr,
      List.flatMap]

/-- C3 amended: every synthesized component lies in the unit interval;
u is 0 at the minimum X and v is 0 at the minimum Z; u is 1 at the
maximum X and v is 1 at the maximum Z provided that axis has positive
extent (on a zero-extent axis every coordinate is 0). -/
theorem c3_uv_range (ps : List Vec3) :
    (∀ w ∈ synthUVs ps, 0 ≤ w ∧ w ≤ 1) ∧
    (∀ p ∈ ps, p.x = minXs ps → uOf ps p = 0) ∧
    (∀ p ∈ ps, p.z = minZs ps → vOf ps p = 0) ∧
    (minXs ps < maxXs ps → ∀ p ∈ ps, p.x = maxXs ps → uOf ps p = 1) ∧
    (minZs ps < maxZs ps → ∀ p ∈ ps, p.z = maxZs ps → vOf ps p = 1) := by
  refine ⟨fun w hw => synthUVs_mem_unit ps w hw, ?_, ?_, ?_, ?_⟩
  · intro p _ hx
    unfold uOf
    rw [hx, sub_self, zero_div]
  · intro p _ hz
    unfold vOf
    rw [hz, sub_self, zero_div]
  · intro hlt p _ hx
    have hne : maxXs ps - minXs ps ≠ 0 := by
      intro h0
      rw [sub_eq_zero] at h0
      exact absurd h0.symm (ne_of_lt hlt)
    unfold uOf rangeX jsOr
    rw [if_neg hne, hx]
    exact div_self hne
  · intro hlt p _ hz
    have hne : maxZs ps - minZs ps ≠ 0 := by
      intro h0
      rw [sub_eq_zero] at h0
      exact absurd h0.symm (ne_of_lt hlt)
    unfold vOf rangeZ jsOr
    rw [if_neg hne, hz]
    exact div_self hne

/-- C3 witness: the amended range theorem at a concrete buffer where
the vertex at the maximum of each axis receives coordinate 1. -/
theorem c3_uv_range_witness :
    uOf [(⟨0, 0, 0⟩ : Vec3), ⟨1, 0, 2⟩] ⟨1, 0, 2⟩ = 1 ∧
    vOf [(⟨0, 0, 0⟩ : Vec3), ⟨1, 0, 2⟩] ⟨1, 0, 2⟩ = 1 := by
  have hx : minXs [(⟨0, 0, 0⟩ : Vec3), ⟨1, 0, 2⟩] <
      maxXs [(⟨0, 0, 0⟩ : Vec3), ⟨1, 0, 2⟩] := by
    norm_num [minXs, maxXs]
  have hz : minZs [(⟨0, 0, 0⟩ : Vec3), ⟨1, 0, 2⟩] <
      maxZs [(⟨0, 0, 0⟩ : Vec3), ⟨1, 0, 2⟩] := by
    norm_num [minZs, maxZs]
  constructor
  · exact (c3_uv_range [(⟨0, 0, 0⟩ : Vec3), ⟨1, 0, 2⟩]).2.2.2.1 hx
      ⟨1, 0, 2⟩ (by simp) (by norm_num [maxXs])
  · exact (c3_uv_range [(⟨0, 0, 0⟩ : Vec3), ⟨1, 0, 2⟩]).2.2.2.2 hz
      ⟨1, 0, 2⟩ (by simp) (by norm_num [maxZs])

theorem mul_max_eq (s u v : ℚ) (hs : 0 ≤ s) :
    s * max u v = max (s * u) (s * v) := by
  rcases le_total u v with h | h
  · rw [max_eq_right h, max_eq_right (mul_le_mul_of_nonneg_left h hs)]
  · rw [max_eq_left h, max_eq_left (mul_le_mul_of_nonneg_left h hs)]

/-- C1: for finite non-degenerate raw bounds and positive target
footprint, the anchor, scale, offset chain produces a world box whose
largest extent is exactly the target footprint and whose minimum world
Y equals the anchor Y; moreover every point of the raw box maps inside
that world box. -/
theorem c1_normalization_invariant (a : Vec3) (fit : ℚ) (b : Box)
    (hx : b.min.x ≤ b.max.x) (hy : b.min.y ≤ b.max.y)
    (hz : b.min.z ≤ b.max.z) (hdim : 0 < maxDim b) (hfit : 0 < fit) :
    maxDim (worldBox a (normScale fit b) (offsetOf b) b) = fit ∧
    (worldBox a (normScale fit b) (offsetOf b) b).min.y = a.y ∧
    ∀ p : Vec3, inBox b p →
      inBox (worldBox a (normScale fit b) (offsetOf b) b)
        (chainApply a (normScale fit b) (offsetOf b) p) := by
  have hs : 0 < normScale fit b := div_pos hfit hdim
  have hs0 : 0 ≤ normScale fit b := le_of_lt hs
  refine ⟨?_, ?_, ?_⟩
  · show max3 (boxSize (worldBox a (normScale fit b) (offsetOf b) b)) = fit
    have hsize : boxSize (worldBox a (normScale fit b) (offsetOf b) b) =
        ⟨normScale fit b * (boxSize b).x,
         normScale fit b * (boxSize b).y,
         normScale fit b * (boxSize b).z⟩ := by
      unfold boxSize worldBox chainApply
      simp only [Vec3.mk.injEq]
      refine ⟨by ring, by ring, by ring⟩
    rw [hsize]
    unfold max3
    simp only
    rw [← mul_max_eq _ _ _ hs0, ← mul_max_eq _ _ _ hs0]
    show normScale fit b * maxDim b = fit
    unfold normScale
    exact div_mul_cancel₀ fit (ne_of_gt hdim)
  · show a.y + normScale fit b * ((offsetOf b).y + b.min.y) = a.y
    unfold offsetOf
    simp
  · intro p hp
    rcases hp with ⟨h1, h2, h3, h4, h5, h6⟩
    unfold inBox worldBox chainApply
    refine ⟨?_, ?_, ?_, ?_, ?_, ?_⟩ <;> simp only <;>
      apply add_le_add_left <;>
      apply mul_le_mul_of_nonneg_left _ hs0 <;>
      apply add_le_add_left <;> assumption

/-- C1 witness: the normalization invariant at the documented cube
scenario, raw bounds from minus one to one, footprint 40, anchor at
(10, 0, 0). -/
theorem c1_normalization_witness :
    maxDim (worldBox ⟨10, 0, 0⟩
      (normScale 40 ⟨⟨-1, -1, -1⟩, ⟨1, 1, 1⟩⟩)
      (offsetOf ⟨⟨-1, -1, -1⟩, ⟨1, 1, 1⟩⟩)
      ⟨⟨-1, -1, -1⟩, ⟨1, 1, 1⟩⟩) = 40 ∧
    (worldBox ⟨10, 0, 0⟩
      (normScale 40 ⟨⟨-1, -1, -1⟩, ⟨1, 1, 1⟩⟩)
      (offsetOf ⟨⟨-1, -1, -1⟩, ⟨1, 1, 1⟩⟩)
      ⟨⟨-1, -1, -1⟩, ⟨1, 1, 1⟩⟩).min.y = 0 := by
  have hdim : (0 : ℚ) < maxDim ⟨⟨-1, -1, -1⟩, ⟨1, 1, 1⟩⟩ := by
    norm_num [maxDim, max3, boxSize]
  have h := c1_normalization_invariant ⟨10, 0, 0⟩ 40 ⟨⟨-1, -1, -1⟩, ⟨1, 1, 1⟩⟩
    (by norm_num) (by norm_num) (by norm_num) hdim (by norm_num)
  exact ⟨h.1, h.2.1⟩

/-- C5 counterexample: loading two descriptors that share a name raises
no error; the CanvasHost loader ends with the second anchor registered
under the name (silent overwrite) and the SceneManager loader ends with
the first (silent skip). -/
theorem c5_counterexample :
    regFind (canvasLoadAll [(dupCfg1, unitBox), (dupCfg2, unitBox)] []) dupName =
      some ⟨30, 2/5, 0⟩ ∧
    regFind (smLoadAll [(dupCfg1, some unitBox), (dupCfg2, some unitBox)] []) dupName =
      some ⟨-30, 0, 0⟩ ∧
    ((⟨30, 2/5, 0⟩ : Vec3) ≠ ⟨-30, 0, 0⟩) := by
  refine ⟨?_, ?_, by decide⟩
  · rfl
  · rfl

/-- C5 amended: no duplicate check exists: the CanvasHost registration
step always installs the new anchor under the descriptor name, shadowing
any earlier registration, while the SceneManager step leaves the
registry unchanged when the name is already present and registers the
anchor only when the name is fresh and bounds are available. -/
theorem c5_duplicate_handling (r : Registry) (cfg : MConfig) (b : Box)
    (ob : Option Box) :
    regFind (canvasNormalize r cfg b).registry cfg.name = some (anchorPosOf cfg) ∧
    ((regFind r cfg.name).isSome = true → smLoadStep r cfg ob = r) ∧
    (regFind r cfg.name = none → ∀ b2, ob = some b2 →
      regFind (smLoadStep r cfg ob) cfg.name = some (anchorPosOf cfg)) := by
  refine ⟨?_, ?_, ?_⟩
  · show regFind ((cfg.name, anchorPosOf cfg) :: r) cfg.name = some (anchorPosOf cfg)
    unfold regFind
    rw [List.find?_cons_of_pos _ (by simp)]
    rfl
  · intro hsome
    unfold smLoadStep
    rw [if_pos hsome]
  · intro hnone b2 hob
    unfold smLoadStep
    rw [hob]
    rw [if_neg (by rw [hnone]; simp)]
    unfold regFind
    rw [List.find?_cons_of_pos _ (by simp)]
    rfl

/-- C5 witness: the amended duplicate-handling theorem at a concrete
registry that already holds the duplicate name. -/
theorem c5_duplicate_handling_witness :
    regFind (canvasNormalize [(dupName, ⟨-30, 0, 0⟩)] dupCfg2 unitBox).registry
      dupCfg2.name = some (anchorPosOf dupCfg2) ∧
    smLoadStep [(dupName, ⟨-30, 0, 0⟩)] dupCfg2 (some unitBox) =
      [(dupName, ⟨-30, 0, 0⟩)] := by
  have h := c5_duplicate_handling [(dupName, ⟨-30, 0, 0⟩)] dupCfg2 unitBox
    (some unitBox)
  exact ⟨h.1, h.2.1 (by decide)⟩

/-- C6 counterexample: for zero-extent bounds no degenerate-geometry
error occurs; the model is not skipped: its anchor is registered and
the scaler receives the non-finite scale Infinity. -/
theorem c6_counterexample :
    (canvasNormalize [] dupCfg1 pointBox).scale = JsNum.posInf ∧
    ((canvasNormalize [] dupCfg1 pointBox).scale).isFinite = false ∧
    regFind (canvasNormalize [] dupCfg1 pointBox).registry dupCfg1.name =
      some ⟨-30, 0, 0⟩ := by
  have hdeg : maxDim pointBox = 0 := by
    norm_num [pointBox, maxDim, max3, boxSize]
  have hscale : (canvasNormalize [] dupCfg1 pointBox).scale = JsNum.posInf := by
    show jsDiv (fitSizeOf dupCfg1) (maxDim pointBox) = JsNum.posInf
    rw [hdeg]
    norm_num [jsDiv, fitSizeOf, dupCfg1]
  refine ⟨hscale, by rw [hscale]; rfl, ?_⟩
  show regFind ((dupCfg1.name, anchorPosOf dupCfg1) :: []) dupCfg1.name =
    some ⟨-30, 0, 0⟩
  unfold regFind
  rw [List.find?_cons_of_pos _ (by simp)]
  norm_num [anchorPosOf, dupCfg1]

/-- C6 amended: when the largest raw dimension is zero and the target
footprint positive, the CanvasHost loader raises no error and does not
skip the model: the anchor is registered under the descriptor name and
the applied scale is the non-finite value Infinity. -/
theorem c6_degenerate_not_skipped (r : Registry) (cfg : MConfig) (b : Box)
    (hdeg : maxDim b = 0) (hfit : 0 < fitSizeOf cfg) :
    (canvasNormalize r cfg b).scale = JsNum.posInf ∧
    ((canvasNormalize r cfg b).scale).isFinite = false ∧
    regFind (canvasNormalize r cfg b).registry cfg.name =
      some (anchorPosOf cfg) := by
  have hscale : (canvasNormalize r cfg b).scale = JsNum.posInf := by
    show jsDiv (fitSizeOf cfg) (maxDim b) = JsNum.posInf
    unfold jsDiv
    rw [if_pos hdeg, if_pos hfit]
  refine ⟨hscale, ?_, ?_⟩
  · rw [hscale]
    rfl
  · show regFind ((cfg.name, anchorPosOf cfg) :: r) cfg.name = some (anchorPosOf cfg)
    unfold regFind
    rw [List.find?_cons_of_pos _ (by simp)]
    rfl

/-- C6 witness: the amended degenerate-geometry theorem at the concrete
point bounds. -/
theorem c6_degenerate_witness :
    (canvasNormalize [] dupCfg2 pointBox).scale = JsNum.posInf ∧
    regFind (canvasNormalize [] dupCfg2 pointBox).registry dupCfg2.name =
      some (anchorPosOf dupCfg2) := by
  have h := c6_degenerate_not_skipped [] dupCfg2 pointBox
    (by norm_num [pointBox, maxDim, max3, boxSize]) (by norm_num [fitSizeOf, dupCfg2])
  exact ⟨h.1, h.2.2⟩

theorem boxLe_refl (b : Box) : boxLe b b := by
  unfold boxLe
  refine ⟨le_refl _, le_refl _, le_refl _, le_refl _, le_refl _, le_refl _⟩

theorem boxLe_trans (b1 b2 b3 : Box) (h12 : boxLe b1 b2) (h23 : boxLe b2 b3) :
    boxLe b1 b3 := by
  rcases h12 with ⟨a1, a2, a3, a4, a5, a6⟩
  rcases h23 with ⟨c1, c2, c3, c4, c5, c6⟩
  exact ⟨le_trans c1 a1, le_trans c2 a2, le_trans c3 a3,
    le_trans a4 c4, le_trans a5 c5, le_trans a6 c6⟩

theorem boxLe_union_left (b1 b2 : Box) : boxLe b1 (boxUnion b1 b2) := by
  unfold boxLe boxUnion
  exact ⟨min_le_left _ _, min_le_left _ _, min_le_left _ _,
    le_max_left _ _, le_max_left _ _, le_max_left _ _⟩

theorem boxLe_union_right (b1 b2 : Box) : boxLe b2 (boxUnion b1 b2) := by
  unfold boxLe boxUnion
  exact ⟨min_le_right _ _, min_le_right _ _, min_le_right _ _,
    le_max_right _ _, le_max_right _ _, le_max_right _ _⟩

theorem unionFold_grows (bs : List (Option Box)) (b : Box) :
    ∃ u, bs.foldl unionStep (some b) = some u ∧ boxLe b u := by
  induction bs generalizing b with
  | nil => exact ⟨b, rfl, boxLe_refl b⟩
  | cons ob t ih =>
    cases ob with
    | none => exact ih b
    | some b2 =>
      rcases ih (boxUnion b b2) with ⟨u, hu, hle⟩
      exact ⟨u, hu, boxLe_trans _ _ _ (boxLe_union_left b b2) hle⟩

theorem unionFold_mem (bs : List (Option Box)) (acc : Option Box) (b2 : Box)
    (h : some b2 ∈ bs) :
    ∃ u, bs.foldl unionStep acc = some u ∧ boxLe b2 u := by
  induction bs generalizing acc with
  | nil => cases h
  | cons ob t ih =>
    rcases List.mem_cons.mp h with he | ht
    · subst he
      cases acc with
      | none =>
        exact unionFold_grows t b2
      | some b =>
        rcases unionFold_grows t (boxUnion b b2) with ⟨u, hu, hle⟩
        exact ⟨u, hu, boxLe_trans _ _ _ (boxLe_union_right b b2) hle⟩
    · exact ih (unionStep acc ob) ht

/-- C7 counterexample: with one registered anchor at position
(30, 2/5, 0) whose world bounds run from (25, 0, -5) to (35, 10, 5),
the CanvasHost whole-scene framing targets the anchor-position average
(30, 20, 0) with radius 150, not the union box center (30, 5, 0) that
frameAll computes, and with no anchors it leaves the previous camera
target in place instead of a fixed default. -/
theorem c7_counterexample :
    canvasFrame [⟨30, 2/5, 0⟩] ⟨⟨7, 8, 9⟩, 1⟩ = ⟨⟨30, 20, 0⟩, 150⟩ ∧
    frameAll [some ⟨⟨25, 0, -5⟩, ⟨35, 10, 5⟩⟩] ⟨⟨7, 8, 9⟩, 1⟩ =
      ⟨⟨30, 5, 0⟩, 100⟩ ∧
    (canvasFrame [⟨30, 2/5, 0⟩] ⟨⟨7, 8, 9⟩, 1⟩).target ≠
      boxCenter ⟨⟨25, 0, -5⟩, ⟨35, 10, 5⟩⟩ ∧
    (canvasFrame [] ⟨⟨7, 8, 9⟩, 1⟩).target = ⟨7, 8, 9⟩ := by
  have h1 : canvasFrame [⟨30, 2/5, 0⟩] ⟨⟨7, 8, 9⟩, 1⟩ = ⟨⟨30, 20, 0⟩, 150⟩ := by
    unfold canvasFrame
    norm_num
  refine ⟨h1, ?_, ?_, ?_⟩
  · have hu : unionAcc [some (⟨⟨25, 0, -5⟩, ⟨35, 10, 5⟩⟩ : Box)] =
        some ⟨⟨25, 0, -5⟩, ⟨35, 10, 5⟩⟩ := rfl
    have hf : frameAll [some (⟨⟨25, 0, -5⟩, ⟨35, 10, 5⟩⟩ : Box)] ⟨⟨7, 8, 9⟩, 1⟩ =
        ⟨boxCenter ⟨⟨25, 0, -5⟩, ⟨35, 10, 5⟩⟩,
         max (max3 (boxSize ⟨⟨25, 0, -5⟩, ⟨35, 10, 5⟩⟩) * (3/2)) 100⟩ := by
      unfold frameAll
      rw [hu]
    rw [hf]
    have hsz : max3 (boxSize (⟨⟨25, 0, -5⟩, ⟨35, 10, 5⟩⟩ : Box)) = 10 := by
      norm_num [boxSize, max3, max_self]
    rw [hsz]
    have hr : max ((10 : ℚ) * (3/2)) 100 = 100 := by
      rw [max_eq_right]
      norm_num
    rw [hr]
    norm_num [boxCenter, CamState.mk.injEq, Vec3.mk.injEq]
  · rw [h1]
    simp only [boxCenter]
    intro h
    have h2 := congrArg Vec3.y h
    norm_num at h2
  · unfold canvasFrame
    norm_num

/-- C7 amended: SceneManager.frameAll frames the union box accumulated
over all anchors with bounds: when no anchor contributes bounds it
falls back to the fixed target (0, 10, 0) with radius 150, and
otherwise it targets the center of a union box that contains every
contributed bounds box, with radius max of 1.5 times the largest
extent and 100; the CanvasHost load-path framing instead targets the
average of the anchor X and Z positions at height 20 with radius
always 150, leaving the target untouched when no anchors exist. -/
theorem c7_framing_behaviour (bs : List (Option Box)) (aps : List Vec3)
    (cam : CamState) :
    (unionAcc bs = none → frameAll bs cam = ⟨⟨0, 10, 0⟩, 150⟩) ∧
    (∀ b, unionAcc bs = some b →
      frameAll bs cam = ⟨boxCenter b, max (max3 (boxSize b) * (3/2)) 100⟩ ∧
      ∀ b2, some b2 ∈ bs → boxLe b2 b) ∧
    (aps ≠ [] → canvasFrame aps cam =
      ⟨⟨(aps.map Vec3.x).sum / aps.length, 20,
        (aps.map Vec3.z).sum / aps.length⟩, 150⟩) ∧
    (canvasFrame [] cam = ⟨cam.target, 150⟩) := by
  refine ⟨?_, ?_, ?_, ?_⟩
  · intro h
    unfold frameAll
    rw [h]
  · intro b hb
    constructor
    · unfold frameAll
      rw [hb]
    · intro b2 hmem
      rcases unionFold_mem bs none b2 hmem with ⟨u, hu, hle⟩
      have hu2 : unionAcc bs = some u := hu
      have hbu : b = u := by
        rw [hb] at hu2
        exact Option.some.inj hu2
      rw [hbu]
      exact hle
  · intro hne
    unfold canvasFrame
    rw [if_neg (by simpa using hne)]
  · unfold canvasFrame
    norm_num

/-- C7 witness: the amended framing theorem at one concrete anchor
bounds list and one concrete anchor position list. -/
theorem c7_framing_witness :
    frameAll [some ⟨⟨25, 0, -5⟩, ⟨35, 10, 5⟩⟩] ⟨⟨7, 8, 9⟩, 1⟩ =
      ⟨boxCenter ⟨⟨25, 0, -5⟩, ⟨35, 10, 5⟩⟩,
        max (max3 (boxSize ⟨⟨25, 0, -5⟩, ⟨35, 10, 5⟩⟩) * (3/2)) 100⟩ ∧
    canvasFrame [⟨30, 2/5, 0⟩] ⟨⟨7, 8, 9⟩, 1⟩ =
      ⟨⟨([(⟨30, 2/5, 0⟩ : Vec3)].map Vec3.x).sum / 1, 20,
        ([(⟨30, 2/5, 0⟩ : Vec3)].map Vec3.z).sum / 1⟩, 150⟩ := by
  have h := c7_framing_behaviour [some ⟨⟨25, 0, -5⟩, ⟨35, 10, 5⟩⟩]
    [⟨30, 2/5, 0⟩] ⟨⟨7, 8, 9⟩, 1⟩
  refine ⟨(h.2.1 _ rfl).1, ?_⟩
  have h2 := h.2.2.1 (by simp)
  simpa using h2

/-- C8 counterexample: a single mesh whose box has finite X corners but
a positive-infinite maximum Y passes the guard: the function returns
the box, with the non-finite Y inside, instead of none. -/
theorem c8_counterexample :
    computeWorldBounds
      [⟨⟨JsNum.fin 0, JsNum.fin 0, JsNum.fin 0⟩,
        ⟨JsNum.fin 1, JsNum.posInf, JsNum.fin 1⟩⟩] =
      some ⟨⟨JsNum.fin 0, JsNum.fin 0, JsNum.fin 0⟩,
        ⟨JsNum.fin 1, JsNum.posInf, JsNum.fin 1⟩⟩ ∧
    (JsNum.posInf).isFinite = false := by
  constructor
  · rfl
  · rfl

/-- C8 amended: the bounds computation returns none exactly when the
mesh set is empty or the X component of an accumulated corner is
non-finite; non-finite Y or Z components with finite X are not
detected and are returned inside the box. -/
theorem c8_bounds_none_iff (ms : List JsBox) :
    (computeWorldBounds ms = none ↔
      ms = [] ∨ (accMin ms).x.isFinite = false ∨
        (accMax ms).x.isFinite = false) ∧
    (computeWorldBounds ms = none ∨
      computeWorldBounds ms = some ⟨accMin ms, accMax ms⟩) := by
  unfold computeWorldBounds
  by_cases hlen : ms.length = 0
  · rw [if_pos hlen]
    have hnil : ms = [] := List.length_eq_zero.mp hlen
    simp [hnil]
  · rw [if_neg hlen]
    have hne : ms ≠ [] := by
      intro h
      exact hlen (by rw [h]; rfl)
    by_cases hmin : (accMin ms).x.isFinite = true
    · by_cases hmax : (accMax ms).x.isFinite = true
      · rw [if_pos (by rw [hmin, hmax]; rfl)]
        simp [hne, hmin, hmax]
      · have hmax2 : (accMax ms).x.isFinite = false := Bool.eq_false_iff.mpr hmax
        rw [if_neg (by rw [hmin, hmax2]; simp)]
        simp [hne, hmax2]
    · have hmin2 : (accMin ms).x.isFinite = false := Bool.eq_false_iff.mpr hmin
      rw [if_neg (by rw [hmin2]; simp)]
      simp [hne, hmin2]

theorem hoverStep_inv (s : HoverState) (e : PEvent) (h : HoverInv s) :
    HoverInv (hoverStep s e) := by
  cases e with
  | over m i =>
    dsimp only [hoverStep]
    by_cases hi : i = true
    · rw [if_pos hi]
      exact h
    · rw [if_neg hi]
      by_cases hl : s.last = some m
      · rw [if_pos hl]
        exact h
      · rw [if_neg hl]
        intro x hx
        simp only at hx
        rcases Finset.mem_insert.mp hx with hxm | hxrest
        · rw [hxm]
        · exfalso
          cases hlast : s.last with
          | none =>
            rw [hlast] at hxrest
            simp only at hxrest
            have := h x hxrest
            rw [hlast] at this
            exact Option.noConfusion this
          | some prev =>
            rw [hlast] at hxrest
            simp only at hxrest
            have hxne := Finset.ne_of_mem_erase hxrest
            have hxmem := Finset.mem_of_mem_erase hxrest
            have := h x hxmem
            rw [hlast] at this
            exact hxne (Option.some.inj this).symm
  | out m i =>
    dsimp only [hoverStep]
    by_cases hi : i = true
    · rw [if_pos hi]
      exact h
    · rw [if_neg hi]
      intro x hx
      simp only at hx
      have hxne := Finset.ne_of_mem_erase hx
      have hxmem := Finset.mem_of_mem_erase hx
      have hlx := h x hxmem
      by_cases hl : s.last = some m
      · exfalso
        rw [hl] at hlx
        exact hxne (Option.some.inj hlx).symm
      · simp only
        rw [if_neg hl]
        exact hlx

theorem hoverRun_inv (evs : List PEvent) : HoverInv (hoverRun evs) := by
  have hgen : ∀ s : HoverState, HoverInv s → HoverInv (evs.foldl hoverStep s) := by
    induction evs with
    | nil => intro s hs; exact hs
    | cons e t ih =>
      intro s hs
      exact ih (hoverStep s e) (hoverStep_inv s e hs)
  apply hgen
  intro x hx
  cases hx

/-- C9: across every event sequence, at most one mesh carries the
hover highlight marker at any instant. -/
theorem c9_hover_exclusive (evs : List PEvent) :
    (hoverRun evs).marked.card ≤ 1 := by
  apply Finset.card_le_one.mpr
  intro a ha b hb
  have hA := hoverRun_inv evs a ha
  have hB := hoverRun_inv evs b hb
  rw [hA] at hB
  exact Option.some.inj hB

theorem applySnap_target (snap : ℚ) (cam : CamState) (h : 0 < snap) :
    applySnap snap cam =
      { cam with target := ⟨((round (cam.target.x / snap) : ℤ) : ℚ) * snap,
          cam.target.y,
          ((round (cam.target.z / snap) : ℤ) : ℚ) * snap⟩ } := by
  unfold applySnap
  rw [if_neg (not_le.mpr h)]
  by_cases hc : ((round (cam.target.x / snap) : ℤ) : ℚ) * snap ≠ cam.target.x ∨
      ((round (cam.target.z / snap) : ℤ) : ℚ) * snap ≠ cam.target.z
  · rw [if_pos hc]
  · push_neg at hc
    rw [if_neg (not_or.mpr ⟨not_not_intro hc.1, not_not_intro hc.2⟩)]
    rcases hc with ⟨hx, hz⟩
    cases cam with
    | mk t r =>
      cases t with
      | mk tx ty tz =>
        simp only at hx hz
        simp [hx, hz]

/-- C10: with a positive snap distance, each view change rounds the
target X and Z to the nearest integer multiple of the snap distance
(within half a snap distance) and leaves target Y and the radius
unchanged; with a non-positive snap distance the camera is untouched. -/
theorem c10_applySnap_spec (snap : ℚ) (cam : CamState) :
    (0 < snap →
      (applySnap snap cam).target.x =
        ((round (cam.target.x / snap) : ℤ) : ℚ) * snap ∧
      (applySnap snap cam).target.z =
        ((round (cam.target.z / snap) : ℤ) : ℚ) * snap ∧
      (applySnap snap cam).target.y = cam.target.y ∧
      (applySnap snap cam).radius = cam.radius ∧
      (∃ kx : ℤ, (applySnap snap cam).target.x = (kx : ℚ) * snap) ∧
      (∃ kz : ℤ, (applySnap snap cam).target.z = (kz : ℚ) * snap) ∧
      |(applySnap snap cam).target.x - cam.target.x| ≤ snap / 2 ∧
      |(applySnap snap cam).target.z - cam.target.z| ≤ snap / 2) ∧
    (snap ≤ 0 → applySnap snap cam = cam) := by
  constructor
  · intro h
    have ht := applySnap_target snap cam h
    have hs0 : snap ≠ 0 := ne_of_gt h
    have hroundX : |((round (cam.target.x / snap) : ℤ) : ℚ) * snap - cam.target.x|
        ≤ snap / 2 := by
      have hxc : cam.target.x / snap * snap = cam.target.x :=
        div_mul_cancel₀ _ hs0
      have step : ((round (cam.target.x / snap) : ℤ) : ℚ) * snap - cam.target.x
          = (((round (cam.target.x / snap) : ℤ) : ℚ) - cam.target.x / snap) * snap := by
        rw [sub_mul, hxc]
      rw [step, abs_mul, abs_of_pos h, abs_sub_comm]
      have hb := abs_sub_round (cam.target.x / snap)
      have hmul : |cam.target.x / snap - ((round (cam.target.x / snap) : ℤ) : ℚ)| * snap
          ≤ (1 / 2) * snap :=
        mul_le_mul_of_nonneg_right hb (le_of_lt h)
      linarith
    have hroundZ : |((round (cam.target.z / snap) : ℤ) : ℚ) * snap - cam.target.z|
        ≤ snap / 2 := by
      have hzc : cam.target.z / snap * snap = cam.target.z :=
        div_mul_cancel₀ _ hs0
      have step : ((round (cam.target.z / snap) : ℤ) : ℚ) * snap - cam.target.z
          = (((round (cam.target.z / snap) : ℤ) : ℚ) - cam.target.z / snap) * snap := by
        rw [sub_mul, hzc]
      rw [step, abs_mul, abs_of_pos h, abs_sub_comm]
      have hb := abs_sub_round (cam.target.z / snap)
      have hmul : |cam.target.z / snap - ((round (cam.target.z / snap) : ℤ) : ℚ)| * snap
          ≤ (1 / 2) * snap :=
        mul_le_mul_of_nonneg_right hb (le_of_lt h)
      linarith
    rw [ht]
    refine ⟨rfl, rfl, rfl, rfl, ⟨round (cam.target.x / snap), rfl⟩,
      ⟨round (cam.target.z / snap), rfl⟩, ?_, ?_⟩
    · exact hroundX
    · exact hroundZ
  · intro h
    unfold applySnap
    rw [if_pos h]

/-- C10 witness: the snap theorem at snap distance 2 and a camera
targeting (3, 5, 7) with radius 9. -/
theorem c10_applySnap_witness :
    (applySnap 2 ⟨⟨3, 5, 7⟩, 9⟩).target.x =
      ((round ((3 : ℚ) / 2) : ℤ) : ℚ) * 2 ∧
    (applySnap 2 ⟨⟨3, 5, 7⟩, 9⟩).target.y = 5 ∧
    (applySnap 2 ⟨⟨3, 5, 7⟩, 9⟩).radius = 9 ∧
    |(applySnap 2 ⟨⟨3, 5, 7⟩, 9⟩).target.x - 3| ≤ 2 / 2 := by
  have h := (c10_applySnap_spec 2 ⟨⟨3, 5, 7⟩, 9⟩).1 (by norm_num)
  exact ⟨h.1, h.2.2.1, h.2.2.2.1, h.2.2.2.2.2.2.1⟩

end WebGpuDemo
